import Mathlib

/-!
Verification development for the solid-react adapter repository.

The repository has two halves: a reactive hook-emulation layer
(src/src/solid-react-adapter/hooks.ts, patch.ts, index.tsx) and a
source-to-source transform engine (src/unnamed/part_003).  The
definitions below are shallow embeddings of the concrete functions of
those files; each definition carries a comment naming the source
location it embeds.  The underlying solid-js primitives and the acorn
parser are external collaborators (spec section 1): reads of the raw
signal are modelled as events, and parse trees are taken as given
node lists.
-/

/-! ## Pending-write cell of the patched createSignal (patch.ts lines 23-56)

The patched `createSignal` closes over `dirty` and `cache` and returns a
wrapped getter plus a coalescing setter.  `SignalCell` is the closure
state together with two observation counters: `scheduled` counts the
microtask flush callbacks currently queued by `microDelay.then`, and
`writes` counts the calls of the underlying solid `setSignal`
(propagations to subscribers). -/

structure SignalCell (S : Type) where
  committed : S
  dirty : Bool
  cache : S
  scheduled : Nat
  writes : Nat
  deriving Repr, DecidableEq

/-- A fresh cell over the committed value `v`: `dirty = false`, nothing
scheduled, no underlying writes yet.  The `cache` slot of the closure is
unread until the first write populates it; we initialise it with `v`. -/
def SignalCell.init {S : Type} (v : S) : SignalCell S :=
  ⟨v, false, v, 0, 0⟩

/-- The argument accepted by the setter (`SetStateAction` union of
hooks.ts line 32): either a literal next value or an updater function of
the previous value. -/
inductive SetArg (S : Type) where
  | val (v : S)
  | updater (f : S → S)

/-- `typeof value === "function" ? value(cache) : value`
(patch.ts line 52). -/
def SetArg.apply {S : Type} : SetArg S → S → S
  | .val v, _ => v
  | .updater f, prev => f prev

/-- The coalescing setter (patch.ts lines 43-54).  On a clean cell it
schedules one flush microtask, marks the cell dirty and captures the
committed value of the raw signal into `cache`; every write then updates
`cache` in place through `SetArg.apply`. -/
def setSignal {S : Type} (c : SignalCell S) (a : SetArg S) : SignalCell S :=
  let c1 :=
    if c.dirty then c
    else { c with scheduled := c.scheduled + 1, dirty := true, cache := c.committed }
  { c1 with cache := a.apply c1.cache }

/-- One queued flush callback runs (patch.ts lines 45-48): it performs
exactly one underlying signal write with the final `cache` and clears
`dirty`.  When nothing is scheduled the cell is unchanged. -/
def flushMicrotask {S : Type} (c : SignalCell S) : SignalCell S :=
  if c.scheduled = 0 then c
  else { committed := c.cache, dirty := false, cache := c.cache,
         scheduled := c.scheduled - 1, writes := c.writes + 1 }

/-- The wrapped getter (patch.ts lines 30-33): it always reads the raw
signal and returns the pending `cache` while dirty, the committed value
otherwise. -/
def wrappedSignalRead {S : Type} (c : SignalCell S) : S :=
  if c.dirty then c.cache else c.committed

/-! ## trackDeps (hooks.ts lines 94-110)

Dependency-array entries are either plain values or tagged Dependency
Wrappers.  A wrapper is identified by a numeric id; the process-wide
recorded-dependency metadata (the `solidPatchDeps` list each wrapper
carries) is a function `g : Nat → List Dep`. -/

inductive Dep where
  | plain (v : Nat)
  | wrapper (id : Nat)
  deriving Repr, DecidableEq

/-- The wrapper ids occurring in a dependency list. -/
def wrapperIds : List Dep → List Nat
  | [] => []
  | .plain _ :: rest => wrapperIds rest
  | .wrapper i :: rest => i :: wrapperIds rest

/-- The body of `trackDeps` (hooks.ts lines 94-110) merged with its
`forEach` loop.  `seen` is the `depMap` of the current call: it is
created afresh by every (recursive) call of `trackDeps`, which is why
the recursive call below restarts it at `[]`.  The result is the
sequence of wrapper invocations `dep(symbolValidate)` performed, i.e.
the subscriptions established, in order; `none` means the given fuel
was exhausted before the run completed.  Every evaluation step consumes
one unit of fuel, so a run of the unfueled JS function terminates with
invocation sequence `l` exactly when some fuel returns `some l`. -/
def trackDepsGo (g : Nat → List Dep) : Nat → List Dep → List Nat → Option (List Nat)
  | 0, _, _ => none
  | _ + 1, [], _ => some []
  | fuel + 1, .plain _ :: rest, seen => trackDepsGo g fuel rest seen
  | fuel + 1, .wrapper i :: rest, seen =>
    if i ∈ seen then trackDepsGo g fuel rest seen
    else
      match trackDepsGo g fuel (g i) [] with
      | none => none
      | some sub =>
        match trackDepsGo g fuel rest (i :: seen) with
        | none => none
        | some tail => some (i :: (sub ++ tail))

/-- `trackDeps(deps)` with the ambient recorded-dependency metadata `g`
and a fuel bound: the call starts with an empty `depMap`. -/
def trackDeps (g : Nat → List Dep) (fuel : Nat) (deps : List Dep) : Option (List Nat) :=
  trackDepsGo g fuel deps []

/-- Order-preserving per-list deduplication relative to an already-seen
set: the subscription sequence produced by one `trackDeps` call over a
list whose wrappers all have empty recorded dependency lists. -/
def dedupAcc : List Dep → List Nat → List Nat
  | [], _ => []
  | .plain _ :: rest, seen => dedupAcc rest seen
  | .wrapper i :: rest, seen =>
    if i ∈ seen then dedupAcc rest seen
    else i :: dedupAcc rest (i :: seen)

/-- The diamond metadata: wrappers 0 and 1 both record the deeper
wrapper 2; wrapper 2 records nothing. -/
def diamondDeps : Nat → List Dep
  | 0 => [.wrapper 2]
  | 1 => [.wrapper 2]
  | _ => []

/-- The two-cycle metadata: wrapper 0 records wrapper 1 and wrapper 1
records wrapper 0. -/
def cycleDeps : Nat → List Dep
  | 0 => [.wrapper 1]
  | 1 => [.wrapper 0]
  | _ => []

/-- A metadata function with no recorded dependencies anywhere. -/
def flatDeps : Nat → List Dep := fun _ => []

/-! ## Effect-flavor scheduling (hooks.ts lines 199-278)

All three effect hooks run `microDelay.then` chains from the same
synchronous reactive pass: `useInsertionEffect` chains one continuation
(lines 261-278), `useLayoutEffect` two (lines 233-253), `useEffect`
three (lines 199-218).  `microDelay` is the resolved promise of
patch.ts line 9, so each `.then` enqueues its callback at the tail of
the single microtask queue.  A queued job `(n, p)` is a continuation of
the effect flavor `p` that will chain `n` further continuations before
running the effect body. -/

inductive Phase where
  | insertion
  | layout
  | passive
  deriving Repr, DecidableEq

/-- Drain the microtask queue: dequeue from the head; a job with no
remaining hops executes its effect body (emitting its phase), otherwise
it enqueues the next continuation at the tail.  Each step consumes one
unit of fuel. -/
def drainMicrotasks : Nat → List (Nat × Phase) → List Phase
  | 0, _ => []
  | _ + 1, [] => []
  | fuel + 1, (0, p) :: rest => p :: drainMicrotasks fuel rest
  | fuel + 1, (n + 1, p) :: rest => drainMicrotasks fuel (rest ++ [(n, p)])

/-- Registering one effect of each flavor enqueues its first
continuation during the synchronous pass; the job of a flavor with `k`
chained `.then` levels has `k - 1` remaining hops when first queued. -/
def effectJob : Phase → Nat × Phase
  | .insertion => (0, .insertion)
  | .layout => (1, .layout)
  | .passive => (2, .passive)

/-- The observed execution order of the three effect bodies when the
flavors are declared (and hence first enqueued) in the given order. -/
def effectOrder (decl : List Phase) : List Phase :=
  drainMicrotasks 10 (decl.map effectJob)

/-! ## Dependency-wrapper invocation models (C7)

Each tagged wrapper is modelled as a function of its JS argument list;
an invocation returns the JS result together with the subscriptions it
establishes in the reactive scope of the caller. -/

/-- A JS argument as far as the wrappers inspect it: the
`symbolValidate` sentinel (hooks.ts line 53) or anything else. -/
inductive CallArg where
  | validate
  | other
  deriving Repr, DecidableEq

/-- Invoking the wrapper returned by `useMemo` (hooks.ts lines 177-180):
`() => { trackDeps(deps); return cache }`.  The arrow function declares
no parameters, so the argument list is ignored: every invocation runs
`trackDeps` on the declared list and returns the closure cache. -/
def memoInvoke {A : Type} (g : Nat → List Dep) (fuel : Nat) (deps : List Dep)
    (cache : A) (_args : List CallArg) : A × Option (List Nat) :=
  (cache, trackDeps g fuel deps)

/-- The `apply` trap of the `useCallback` proxy (hooks.ts lines
147-151): a single `symbolValidate` argument returns the cached
function itself without calling it; anything else applies the cached
function.  The trap body contains no reads of reactive values, so it
establishes no subscriptions; the Bool records whether the underlying
cached function ran. -/
def callbackApply {B : Type} (cache : List CallArg → B) (args : List CallArg) :
    ((List CallArg → B) ⊕ B) × Bool × List Nat :=
  if args.length = 1 ∧ args.headD .other = .validate then (.inl cache, false, [])
  else (.inr (cache args), true, [])

/-- Invoking the patched state getter `wrappedSignal` (patch.ts lines
30-33) under signal id `sid`: `const value = signal(); return dirty ?
cache : value`.  The function declares no parameters, so the argument
list is ignored; the raw signal is read unconditionally, which
subscribes the current reactive scope to `sid`. -/
def wrappedSignalInvoke {A : Type} (sid : Nat) (c : SignalCell A)
    (_args : List CallArg) : A × List Nat :=
  (wrappedSignalRead c, [sid])

/-! ## The useState getter proxy (hooks.ts lines 68-92) -/

/-- A JS value as far as the proxy get trap distinguishes them. -/
inductive JSVal where
  | undef
  | jsNull
  | num (n : Int)
  | str (s : String)
  | boolean (b : Bool)
  | obj (props : List (String × JSVal))

/-- `Reflect.get(target, key)`: throws a TypeError whenever the target
is not an object; on an object it returns the property (or undefined
when absent). -/
def reflectGet : JSVal → String → Except Unit JSVal
  | .obj props, k => .ok ((props.lookup k).getD .undef)
  | _, _ => .error ()

/-- A property key as the get trap switches on it (hooks.ts lines
77-87): the two coercion meta-keys, the `solidPatchDeps` marker, or an
ordinary key. -/
inductive PropKey where
  | toPrimitive
  | toJSON
  | patchDeps
  | strKey (k : String)
  deriving Repr, DecidableEq

/-- What the get trap can return. -/
inductive GetResult where
  | signalFn
  | depsList (d : List Dep)
  | value (v : JSVal)

/-- The get trap of the useState getter proxy (hooks.ts lines 75-88):
meta-keys return the raw signal or its recorded dependency metadata;
every other key forwards through `Reflect.get` to the property of the
current value, which throws when the current value is not an object. -/
def stateGetterGet (current : JSVal) (deps : List Dep) (key : PropKey) :
    Except Unit GetResult :=
  match key with
  | .toPrimitive => .ok .signalFn
  | .toJSON => .ok .signalFn
  | .patchDeps => .ok (.depsList deps)
  | .strKey k => (reflectGet current k).map .value

/-! ## Children.only (index.tsx lines 370-376) -/

/-- The `SingleOrArray` input shape of the Children utilities
(index.tsx line 331). -/
inductive ReactChildren (A : Type) where
  | single (a : A)
  | array (l : List A)
  deriving Repr, DecidableEq

/-- `Children.only` (index.tsx lines 370-376): throws whenever
`Array.isArray(children)` holds, and returns the input itself
otherwise. -/
def childrenOnly {A : Type} : ReactChildren A → Except String A
  | .array _ => .error "Children must be a single element"
  | .single a => .ok a

/-! ## Transform engine (src/unnamed/part_003)

The transform consumes a parse tree from the external acorn parser
(spec section 1 places the parser out of scope), so a translation unit
is modelled as its text together with the preorder list of syntax nodes
the parser produces for the preprocessed text; each node carries its
character offsets and exactly the attributes the traversal inspects.
Nested expressions that the transform re-parses carry their own node
lists.  Strings are ASCII; offsets count characters. -/

/-- `source.slice(a, b)` of JS for nonnegative bounds. -/
def strSlice (s : String) (a b : Nat) : String :=
  ((s.toList.drop a).take (b - a)).asString

/-- Whitespace as matched by the `\s` class of the pre-pass regex
(part_000 / part_003 line 18). -/
def isJsWs (c : Char) : Bool :=
  c = ' ' || c = '\t' || c = '\n' || c = '\r' || c = '\x0b' || c = '\x0c'

/-- Whether a haystack contains a pattern (`String.prototype.includes`). -/
def hasInfix (pat : List Char) : List Char → Bool
  | [] => pat.isEmpty
  | c :: rest => pat.isPrefixOf (c :: rest) || hasInfix pat rest

/-- `s.includes(pat)` of JS. -/
def strIncludes (s pat : String) : Bool :=
  hasInfix pat.toList s.toList

/-- The lookbehind `(?<=function\s*)` of the pre-pass regex
(part_003 line 18), tested against the reversed text before a
candidate parenthesis. -/
def endsFunctionKw (revBefore : List Char) : Bool :=
  ("function".toList.reverse).isPrefixOf (revBefore.dropWhile isJsWs)

/-- Scan for the first match of `(?<=function\s*)\(`. -/
def anonFnIndexGo : Nat → List Char → List Char → Option Nat
  | _, _, [] => none
  | i, before, c :: rest =>
    if c = '(' && endsFunctionKw before then some i
    else anonFnIndexGo (i + 1) (c :: before) rest

/-- The match index of `regAnonymousFunction.exec(source)`
(part_003 lines 18-21). -/
def anonFnIndex (s : List Char) : Option Nat :=
  anonFnIndexGo 0 [] s

/-- `while (avoid.includes(name)) name += "_"` (part_003 lines 23-24,
also lines 132-134): the loop terminates because the name eventually
grows longer than the searched text, so fuel `avoid.length + 1`
computes the exact JS result. -/
def extendName (avoid : String) : Nat → String → String
  | 0, nm => nm
  | fuel + 1, nm => if strIncludes avoid nm then extendName avoid fuel (nm ++ "_") else nm

/-- `handleBeforeAST` (part_003 lines 19-30): if the source contains an
anonymous function literal after the `function` keyword, a synthesized
name not occurring in the text is inserted before its parameter list. -/
def handleBeforeAST (source : String) : String :=
  match anonFnIndex source.toList with
  | none => source
  | some i =>
    let nm := extendName source (source.length + 1) "___"
    strSlice source 0 i ++ " " ++ nm ++ strSlice source i source.length

/-- The role of one identifier occurrence inside a matched effect
callback body, as classified by the inner traversal of part_003 lines
95-123: `declR` for a VariableDeclarator or Property parent (whitelist),
`skipR` for a non-object member position (not visited), `useR`
otherwise (recorded in `identifierMap`). -/
inductive IOccRole where
  | declR
  | useR
  | skipR
  deriving Repr, DecidableEq

/-- One identifier occurrence in a matched effect callback body. -/
structure IOcc where
  name : String
  start : Nat
  stop : Nat
  role : IOccRole
  deriving Repr, DecidableEq

/-- `delete identifierMap[name]` (part_003 line 107). -/
def imDelete (im : List (String × List IOcc)) (nm : String) : List (String × List IOcc) :=
  im.filter (fun e => e.1 ≠ nm)

/-- `identifierMap[name].push(child)`, creating the entry at the end of
the key order when absent (part_003 lines 112-116). -/
def imAdd (im : List (String × List IOcc)) (nm : String) (o : IOcc) : List (String × List IOcc) :=
  if im.any (fun e => e.1 = nm) then
    im.map (fun e => if e.1 = nm then (e.1, e.2 ++ [o]) else e)
  else im ++ [(nm, [o])]

/-- The identifier collection loop of part_003 lines 95-123 as a fold
over the preorder identifier occurrences: declarations whitelist the
name and delete earlier recorded uses; uses of non-whitelisted names
accumulate in the insertion-ordered `identifierMap`. -/
def collectOccs : List IOcc → List String → List (String × List IOcc) → List (String × List IOcc)
  | [], _, im => im
  | o :: rest, wl, im =>
    match o.role with
    | .skipR => collectOccs rest wl im
    | .declR =>
      if o.name ∈ wl then collectOccs rest wl im
      else collectOccs rest (wl ++ [o.name]) (imDelete im o.name)
    | .useR =>
      if o.name ∈ wl then collectOccs rest wl im
      else collectOccs rest wl (imAdd im o.name o)

/-- The per-name loop of part_003 lines 129-144: for each collected
name, emit the text up to just after the opening brace of the callback
body, synthesize a fresh local name, emit the materialized-copy
declaration, and pair every occurrence with its new name. -/
def emitEffectVars (src : String) (blockStart : Nat) (blockSrc : String) :
    List (String × List IOcc) → List String × Nat → List (IOcc × String) →
    (List String × Nat) × List (IOcc × String)
  | [], acc, pairs => (acc, pairs)
  | (nm, os) :: rest, (res, li), pairs =>
    let nn := extendName blockSrc (blockSrc.length + 1) (nm ++ "_")
    let res := res ++ [strSlice src li (blockStart + 1),
      "\nvar " ++ nn ++ " = typeof " ++ nm ++ " === \"function\" && Symbol.solidPatchDeps in "
        ++ nm ++ " ? " ++ nm ++ "(Symbol.symbolValidate) : " ++ nm ++ ";"]
    emitEffectVars src blockStart blockSrc rest (res, blockStart + 1)
      (pairs ++ os.map (fun o => (o, nn)))

/-- Stable insertion by start offset, modelling the sort of part_003
lines 145-148. -/
def insertByStart (p : IOcc × String) : List (IOcc × String) → List (IOcc × String)
  | [] => [p]
  | q :: rest => if p.1.start ≤ q.1.start then p :: q :: rest else q :: insertByStart p rest

/-- `identifiers.sort((a, b) => a.start - b.start)`. -/
def sortByStart : List (IOcc × String) → List (IOcc × String)
  | [] => []
  | p :: rest => insertByStart p (sortByStart rest)

/-- The substitution loop of part_003 lines 149-153. -/
def emitSubstitutions (src : String) : List (IOcc × String) → List String × Nat → List String × Nat
  | [], acc => acc
  | (o, nn) :: rest, (res, li) =>
    emitSubstitutions src rest (res ++ [strSlice src li o.start, nn], o.stop)

/-- The whole matched-effect-call rewrite (part_003 lines 91-154),
transforming the pending results list and cursor. -/
def emitUseEffectRewrite (src : String) (blockStart blockStop : Nat) (occs : List IOcc)
    (res0 : List String) (li0 : Nat) : List String × Nat :=
  let im := collectOccs occs [] []
  let blockSrc := strSlice src blockStart blockStop
  let ((res1, li1), pairs) := emitEffectVars src blockStart blockSrc im (res0, li0) []
  emitSubstitutions src (sortByStart pairs) (res1, li1)

/-- `let tag = "TempCls"; while (...includes(tag)) tag += "_"`
(part_003 lines 331-338). -/
def tempClsName (a b c : String) : Nat → String → String
  | 0, t => t
  | fuel + 1, t =>
    if strIncludes a t || strIncludes b t || strIncludes c t then
      tempClsName a b c fuel (t ++ "_")
    else t

/-- The test `/^[a-z]/.test(tagName)` (part_003 line 182). -/
def isLowerStart (tag : String) : Bool :=
  'a' ≤ tag.toList.headD 'A' && tag.toList.headD 'A' ≤ 'z'

/-- `let newName = tagName + "_"; while (newName === "__wrapSolidComp__"
|| nodeStr.includes(newName)) newName += "_"` (part_003 lines 184-191). -/
def jsxNewName (nodeStr : String) : Nat → String → String
  | 0, nm => nm
  | fuel + 1, nm =>
    if nm = "__wrapSolidComp__" || strIncludes nodeStr nm then
      jsxNewName nodeStr fuel (nm ++ "_")
    else nm

mutual
/-- A value node as consumed by `handleValue` and `handleProps`
(part_003 lines 238-309).  Constructors carrying a `src` field hit the
source-slice default cases; `condV` covers LogicalExpression and
ConditionalExpression, which both functions treat through their default
slice case but `handleCreateElement` singles out.  A property whose
value is a CallExpression carries the node list of the re-parse that
the recursive `transformSource` call of line 294 performs. -/
inductive VNode : Type where
  | identV (name : String)
  | litV (value : String) (raw : String) (isStr : Bool)
  | memberV (obj : VNode) (propV : VNode) (src : String)
  | objectV (props : List VNode) (src : String)
  | propertyV (key : VNode) (value : VNode) (valueIsCall : Bool) (valueSub : List PNode) (src : String)
  | spreadV (src : String)
  | condV (src : String)
  | otherV (src : String)

/-- A child argument of a matched createElement call (part_003 lines
314-325): identifiers are emitted directly, JSX elements and all other
children are re-transformed from their source slice (stored here,
together with the node list of the re-parse). -/
inductive CChild : Type where
  | identC (name : String)
  | jsxC (src : String) (sub : List PNode)
  | otherC (src : String) (sub : List PNode)

/-- The expression classification of a JSXExpressionContainer
(part_003 lines 156-178): identifiers, inline functions and calls are
left alone; an object literal is rewritten property by property (each
property key node, the raw text of its value, and the value re-parse);
anything else is wrapped in an immediately invoked closure around the
re-transformed inner slice. -/
inductive EKind : Type where
  | identE
  | funcE
  | callE
  | objE (props : List (VNode × String × List PNode))
  | otherE (sub : List PNode)

/-- A traversal node of the preorder walk of part_003 lines 46-224,
with its character offsets in the preprocessed source.  A
CallExpression carries its callee, the destructured
`[identifier, props = {}, ...children]` arguments, and the callback
body data needed by the matched-effect rewrite; a JSXElement carries
its tag, opening-element offsets, children (start, stop, whether the
child is itself a JSXElement, and its re-parse), whether a closing
element exists, and whether the element sits in the children of an
enclosing JSXElement. -/
inductive PNode : Type where
  | importN (start stop : Nat) (fromReact : Bool)
      (specs : List (Bool × String × String))
  | callN (start stop : Nat) (callee : VNode) (argId : VNode) (argProps : Option VNode)
      (argChildren : List CChild) (effBlockStart effBlockStop : Nat) (effOccs : List IOcc)
  | containN (start stop : Nat) (ek : EKind)
  | jsxN (start stop : Nat) (tag : String) (openStart openStop : Nat)
      (children : List (Nat × Nat × Bool × List PNode)) (hasClosing : Bool)
      (inJsxChildren : Bool)
  | otherN (start stop : Nat)
end

/-- An import specifier `(isDefaultOrNamespace, importedName, localName)`;
for a default or namespace specifier the imported name is unused. -/
abbrev ISpec := Bool × String × String

/-- The start offset a traversal node is guarded on (`node.start`). -/
def PNode.nStart : PNode → Nat
  | .importN s .. => s
  | .callN s .. => s
  | .containN s .. => s
  | .jsxN s .. => s
  | .otherN s .. => s

/-- The end offset of a traversal node (`node.end`). -/
def PNode.nStop : PNode → Nat
  | .importN _ e .. => e
  | .callN _ e .. => e
  | .containN _ e .. => e
  | .jsxN _ e .. => e
  | .otherN _ e .. => e

/-- `handleValue` (part_003 lines 238-267). -/
def handleValue : VNode → String
  | .identV n => n
  | .litV v _ _ => v
  | .memberV obj propV _ =>
    let o := handleValue obj
    match propV with
    | .litV _ raw _ => o ++ "[" ++ raw ++ "]"
    | .identV p => o ++ "[\"" ++ p ++ "\"]"
    | _ => o ++ "[" ++ handleValue propV ++ "]"
  | .objectV _ src => src
  | .propertyV _ _ _ _ src => src
  | .spreadV src => src
  | .condV src => src
  | .otherV src => src

/-- Whether the JS value returned by `handleValue` is a string: only a
non-string literal yields a non-string (its `value.value`), every other
case builds or slices text.  Used for the `===` comparisons of the
match conditions (part_003 lines 74-89). -/
def handleValueIsStr : VNode → Bool
  | .litV _ _ isStr => isStr
  | _ => true

/-- `handleValue(source, v) === s` where `s` is a JS string. -/
def handleValueEq (v : VNode) (s : String) : Bool :=
  handleValueIsStr v && handleValue v == s

/-- The `property.key.raw ?? handleValue(source, property.key)` of the
object-container rewrite (part_003 line 168): only literal nodes carry
a `raw`. -/
def containKeyStr : VNode → String
  | .litV _ raw _ => raw
  | k => handleValue k

/-- The traversal state of one `transformSource` invocation (part_003
lines 33-45): the default react alias (initially `React`), the local
alias lists of this invocation, the accumulated output fragments and
the advancing cursor. -/
structure TravState where
  drn : String
  ceNames : List String
  ueNames : List String
  results : List String
  lastIndex : Nat

/-- Alias recording for one import specifier of a react import
(part_003 lines 50-71). -/
def applySpec (st : TravState) (sp : ISpec) : TravState :=
  match sp with
  | (true, _, l) => { st with drn := l }
  | (false, imp, l) =>
    if imp = "default" then { st with drn := l }
    else if imp = "createElement" then { st with ceNames := st.ceNames ++ [l] }
    else if imp = "useEffect" || imp = "useLayoutEffect" || imp = "useInsertionEffect" then
      { st with ueNames := st.ueNames ++ [l] }
    else st

/-- Whether a call matches the tree-construction pattern (part_003
lines 74-80): `<defaultReactName>.createElement` member calls, or a
bare call to a name in any alias group of the stack — the groups of
this invocation together with those of enclosing recursive invocations
(`outer`). -/
def matchesCreateElement (drn : String) (own outer : List String) : VNode → Bool
  | .memberV obj propV _ => handleValueEq obj drn && handleValueEq propV "createElement"
  | .identV nm => (own ++ outer).contains nm
  | _ => false

/-- Whether a call matches the effect-hook pattern (part_003 lines
84-89). -/
def matchesUseEffect (drn : String) (own outer : List String) : VNode → Bool
  | .memberV obj propV _ => handleValueEq obj drn && handleValueEq propV "useEffect"
  | .identV nm => (own ++ outer).contains nm
  | _ => false

mutual
/-- `transformSource` (part_003 lines 32-236) restricted to its text
result; the alias-stack bookkeeping is modelled separately.  `env` holds
the alias names visible from enclosing recursive invocations through
the process-wide group stacks.  The per-invocation pipeline: run
`handleBeforeAST`, walk the parser nodes in preorder with the cursor
discipline, then append the remaining tail of the source.  Every call
consumes one unit of fuel; with fuel at least the total number of calls
performed the result is the JS result, and fuel never runs out on real
inputs because every recursive call works on a strictly smaller text. -/
def transformSource : Nat → List String × List String → String → List PNode → String
  | 0, _, text, _ => text
  | fuel + 1, env, text, nodes =>
    let src := handleBeforeAST text
    let st := runNodes fuel env src nodes ⟨"React", [], [], [], 0⟩
    String.join st.results ++
      (if st.lastIndex < src.length then strSlice src st.lastIndex src.length else "")

/-- The `traverse(ast.body).forEach` loop of part_003 lines 46-224. -/
def runNodes : Nat → List String × List String → String → List PNode → TravState → TravState
  | 0, _, _, _, st => st
  | _ + 1, _, _, [], st => st
  | fuel + 1, env, src, n :: rest, st =>
    runNodes fuel env src rest (processNode fuel env src n st)

/-- One iteration of the traversal (part_003 lines 47-223): skip nodes
strictly inside an already replaced region, then dispatch on the node
type. -/
def processNode : Nat → List String × List String → String → PNode → TravState → TravState
  | 0, _, _, _, st => st
  | fuel + 1, env, src, n, st =>
    if n.nStart < st.lastIndex then st
    else
      match n with
      | .importN _ _ fromReact specs =>
        if fromReact then specs.foldl applySpec st else st
      | .callN start stop callee argId argProps argChildren effBS effBE effOccs =>
        if matchesCreateElement st.drn st.ceNames env.1 callee then
          { st with
            results := st.results ++ [strSlice src st.lastIndex start,
              handleCreateElement fuel
                (st.ceNames ++ env.1, st.ueNames ++ env.2) src argId argProps argChildren],
            lastIndex := stop }
        else if matchesUseEffect st.drn st.ueNames env.2 callee then
          let (res, li) := emitUseEffectRewrite src effBS effBE effOccs st.results st.lastIndex
          { st with results := res, lastIndex := li }
        else st
      | .containN start stop ek =>
        match ek with
        | .identE => st
        | .funcE => st
        | .callE => st
        | .objE props =>
          { st with
            results := st.results ++ [strSlice src st.lastIndex start,
              "\x7b\x7b" ++ String.intercalate ","
                (containPropsList fuel (st.ceNames ++ env.1, st.ueNames ++ env.2) props)
                ++ "\x7d\x7d"],
            lastIndex := stop }
        | .otherE sub =>
          { st with
            results := st.results ++ [strSlice src st.lastIndex start,
              "\x7b(function()\x7breturn "
                ++ transformSource fuel (st.ceNames ++ env.1, st.ueNames ++ env.2)
                    (strSlice src (start + 1) (stop - 1)) sub
                ++ "\x7d)()\x7d"],
            lastIndex := stop }
      | .jsxN start stop tag openStart openStop children hasClosing inJsxChildren =>
        if isLowerStart tag then st
        else
          let nodeStr := strSlice src start stop
          let newName := jsxNewName nodeStr (nodeStr.length + tag.length + 20) (tag ++ "_")
          let opening := "<" ++ newName
            ++ strSlice src (openStart + tag.length + 1) openStop
          let childrenStr := jsxChildrenStr fuel
            (st.ceNames ++ env.1, st.ueNames ++ env.2) src children
          let closing := if hasClosing then "</" ++ newName ++ ">" else ""
          let result := "(()=>\x7bvar " ++ newName ++ " = __wrapSolidComp__(" ++ tag
            ++ ");return " ++ opening ++ childrenStr ++ closing ++ "\x7d)()"
          let result := if inJsxChildren then "\x7b" ++ result ++ "\x7d" else result
          { st with
            results := st.results ++ [strSlice src st.lastIndex start, result],
            lastIndex := stop }
      | .otherN _ _ => st

/-- The children fold of the component-tag JSX rewrite (part_003 lines
197-205): each child slice is re-transformed, and JSXElement children
are additionally wrapped in an expression container. -/
def jsxChildrenStr : Nat → List String × List String → String →
    List (Nat × Nat × Bool × List PNode) → String
  | 0, _, _, _ => ""
  | _ + 1, _, _, [] => ""
  | fuel + 1, env, src, (cs, ce, isJsx, sub) :: rest =>
    let childStr := transformSource fuel env (strSlice src cs ce) sub
    (if isJsx then "\x7b" ++ childStr ++ "\x7d" else childStr)
      ++ jsxChildrenStr fuel env src rest

/-- The property list of an ObjectExpression JSX container (part_003
lines 164-171): each value raw text is re-transformed. -/
def containPropsList : Nat → List String × List String →
    List (VNode × String × List PNode) → List String
  | 0, _, _ => []
  | _ + 1, _, [] => []
  | fuel + 1, env, (k, vraw, vsub) :: rest =>
    (containKeyStr k ++ ": " ++ transformSource fuel env vraw vsub)
      :: containPropsList fuel env rest

/-- `handleProps` (part_003 lines 269-309).  `none` stands for the
`props = {}` destructuring default whose type is undefined, so the
default case slices `source.slice(undefined, undefined)`, the whole
source. -/
def handleProps : Nat → List String × List String → String → Option VNode → String
  | 0, _, _, _ => ""
  | _ + 1, _, src, none => "\x7b...(" ++ src ++ ")\x7d"
  | fuel + 1, env, src, some p =>
    match p with
    | .objectV props _ => String.intercalate " " (handlePropsList fuel env src props)
    | .identV _ => ""
    | .propertyV key value valueIsCall valueSub _ =>
      let k0 := handleValue key
      let k := if k0 = "className" then "class" else k0
      let v0 := handleValue value
      let v := if valueIsCall then transformSource fuel env v0 valueSub else v0
      match value with
      | .litV _ raw isStr =>
        if isStr then k ++ "=" ++ raw else k ++ "=\x7b" ++ v ++ "\x7d"
      | _ => k ++ "=\x7b" ++ v ++ "\x7d"
    | .spreadV s => "\x7b" ++ s ++ "\x7d"
    | .litV _ raw _ => "\x7b...(" ++ raw ++ ")\x7d"
    | .memberV _ _ s => "\x7b...(" ++ s ++ ")\x7d"
    | .condV s => "\x7b...(" ++ s ++ ")\x7d"
    | .otherV s => "\x7b...(" ++ s ++ ")\x7d"

/-- The `props.properties.map((prop) => handleProps(source, prop))` of
the ObjectExpression case (part_003 lines 272-277). -/
def handlePropsList : Nat → List String × List String → String → List VNode → List String
  | 0, _, _, _ => []
  | _ + 1, _, _, [] => []
  | fuel + 1, env, src, p :: rest =>
    handleProps fuel env src (some p) :: handlePropsList fuel env src rest

/-- The children fold of `handleCreateElement` (part_003 lines
314-325). -/
def createElementChildren : Nat → List String × List String → List CChild → String
  | 0, _, _ => ""
  | _ + 1, _, [] => ""
  | fuel + 1, env, c :: rest =>
    (match c with
     | .identC n => "\x7b" ++ n ++ "\x7d"
     | .jsxC cs sub => transformSource fuel env cs sub
     | .otherC cs sub => "\x7b" ++ transformSource fuel env cs sub ++ "\x7d")
      ++ createElementChildren fuel env rest

/-- `handleCreateElement` (part_003 lines 311-352): member, logical and
conditional tag expressions are bound to a synthesized `TempCls` name
through `__wrapSolidComp__`; everything else is emitted directly as the
tag. -/
def handleCreateElement : Nat → List String × List String → String →
    VNode → Option VNode → List CChild → String
  | 0, _, _, _, _, _ => ""
  | fuel + 1, env, src, argId, argProps, argChildren =>
    let identifierStr := handleValue argId
    let childrenStr := createElementChildren fuel env argChildren
    match argId with
    | .memberV _ _ _ | .condV _ =>
      let propsStr := handleProps fuel env src argProps
      let tag := tempClsName identifierStr propsStr childrenStr
        (identifierStr.length + propsStr.length + childrenStr.length + 20) "TempCls"
      "(function()\x7bvar " ++ tag ++ "=__wrapSolidComp__(" ++ identifierStr ++ ");return "
        ++ (if childrenStr ≠ "" then
              "<" ++ tag ++ " " ++ propsStr ++ ">" ++ childrenStr ++ "</" ++ tag ++ ">"
            else "<" ++ tag ++ " " ++ propsStr ++ "/>")
        ++ "\x7d)()"
    | _ =>
      if childrenStr ≠ "" then
        "<" ++ identifierStr ++ " " ++ handleProps fuel env src argProps ++ ">"
          ++ childrenStr ++ "</" ++ identifierStr ++ ">"
      else
        "<" ++ identifierStr ++ " " ++ handleProps fuel env src argProps ++ " />"
end

/-! ## Alias scope stack discipline of transformSource (part_003, C6)

This model projects `transformSource` onto its effect on the
process-wide alias group stacks `createElementNameGroups` and
`useEffectNameGroups` (part_003 lines 8, 13): pushes of fresh lists on
entry (lines 34-37), appends of imported local names during traversal
(lines 61, 67), recursive invocations for nested expressions (lines
168, 174, 198, 294, 320, 322), the removal of the invocation lists at
the end (lines 230-234), and the fatal parse error thrown by
`JSXParser.parse` (line 40), which propagates out of the function
before the removal runs.  An invocation is its parse outcome plus the
sequence of stack-relevant events of its traversal. -/

mutual
inductive AEvent : Type where
  | importCreate (nm : String)
  | importEffect (nm : String)
  | recurse (sub : AInput)

inductive AInput : Type where
  | mk (parses : Bool) (events : List AEvent)
end

/-- The two alias group stacks, most recent invocation first. -/
structure AliasStacks where
  ce : List (List String)
  ue : List (List String)
  deriving Repr, DecidableEq

/-- Append an imported local name to the list of the invocation that is
currently traversing; on the success discipline that list is the top of
the stack. -/
def pushName (nm : String) : List (List String) → List (List String)
  | [] => []
  | g :: gs => (g ++ [nm]) :: gs

mutual
/-- One `transformSource` invocation as seen by the alias stacks: push
fresh lists, parse (a failure throws with the lists still pushed), run
the traversal, then splice the invocation lists out.  The Bool is
normal completion; an exception leaves the stacks as they were at the
throw. -/
def runTransformStack : AInput → AliasStacks → AliasStacks × Bool
  | .mk parses events, st =>
    let st1 : AliasStacks := ⟨[] :: st.ce, [] :: st.ue⟩
    if parses then
      match runEventsStack events st1 with
      | (st2, true) => (⟨st2.ce.tail, st2.ue.tail⟩, true)
      | (st2, false) => (st2, false)
    else (st1, false)

/-- The traversal events of one invocation in order; an exception from
a nested invocation propagates and stops the traversal. -/
def runEventsStack : List AEvent → AliasStacks → AliasStacks × Bool
  | [], st => (st, true)
  | .importCreate nm :: rest, st => runEventsStack rest ⟨pushName nm st.ce, st.ue⟩
  | .importEffect nm :: rest, st => runEventsStack rest ⟨st.ce, pushName nm st.ue⟩
  | .recurse sub :: rest, st =>
    match runTransformStack sub st with
    | (st2, true) => runEventsStack rest st2
    | (st2, false) => (st2, false)
end

mutual
/-- Whether every (nested) parse of an invocation succeeds. -/
def allParses : AInput → Bool
  | .mk parses events => parses && allEventsParse events

def allEventsParse : List AEvent → Bool
  | [] => true
  | .importCreate _ :: rest => allEventsParse rest
  | .importEffect _ :: rest => allEventsParse rest
  | .recurse sub :: rest => allParses sub && allEventsParse rest
end

/-! ## Concrete transform inputs used by the claims -/

/-- Parse nodes of the preprocessed form of `foo(function (){})`, a
unit with no react import and no tracked alias: the expression
statement, the call (a bare call to the untracked name `foo`), the
callee identifier and the function expression. -/
def anonFnCexNodes : List PNode :=
  [.otherN 0 22,
   .callN 0 22 (.identV "foo") (.otherV "") none [] 0 0 [],
   .otherN 0 3,
   .otherN 4 21]

/-- The translation unit of spec section 8, Element rewrite example:
a default react import bound to `root` followed by a
`root.createElement` call building a div with a className prop and a
text child. -/
def c8Text : String :=
  "import root from \"react\";root.createElement(\"div\", \x7bclassName: \"a\"\x7d, \"hi\");"

/-- The preorder parse nodes of `c8Text`: the import declaration with
its default specifier bound to `root`, the expression statement, the
matched member call (callee `root.createElement`, first argument the
literal `"div"`, props object with the `className` property, one
further literal child re-parsed as its own two-node unit), and the
nested nodes the cursor skips after the call is replaced. -/
def c8Nodes : List PNode :=
  [.importN 0 25 true [(true, "", "root")],
   .otherN 7 11,
   .otherN 7 11,
   .otherN 17 24,
   .otherN 25 75,
   .callN 25 74 (.memberV (.identV "root") (.identV "createElement") "root.createElement")
     (.litV "div" "\"div\"" true)
     (some (.objectV
       [.propertyV (.identV "className") (.litV "a" "\"a\"" true) false [] "className: \"a\""]
       "\x7bclassName: \"a\"\x7d"))
     [.otherC "\"hi\"" [.otherN 0 4, .otherN 0 4]]
     0 0 [],
   .otherN 25 42,
   .otherN 25 29,
   .otherN 30 42,
   .otherN 44 49,
   .otherN 51 66,
   .otherN 52 60,
   .otherN 63 65,
   .otherN 69 73]

/-- The expected output for `c8Text`. -/
def c8Expected : String :=
  "import root from \"react\";<div class=\"a\">\x7b\"hi\"\x7d</div>;"

/-- A node that triggers no rewrite in a top-level invocation with no
react import anywhere in the unit: a non-react import, a call that is
neither a `React.createElement` nor a `React.useEffect` member call
(bare calls never match because no alias was recorded), an expression
container over an identifier, inline function or call, a lowercase
JSX tag, or any other node. -/
def benignNode : PNode → Bool
  | .importN _ _ fromReact _ => !fromReact
  | .callN _ _ callee _ _ _ _ _ _ =>
    !matchesCreateElement "React" [] [] callee && !matchesUseEffect "React" [] [] callee
  | .containN _ _ ek =>
    match ek with
    | .identE => true
    | .funcE => true
    | .callE => true
    | .objE _ => false
    | .otherE _ => false
  | .jsxN _ _ tag _ _ _ _ _ => isLowerStart tag
  | .otherN _ _ => true

/-! # Theorems -/

/-- C1: from a clean cell over committed value `v`, two synchronous
updater-form writes `set f` then `set g` schedule exactly one flush
microtask and leave the committed value untouched; running the flush
performs exactly one underlying signal write, commits `g (f v)` and
clears the cell; in particular from committed state `0` the updaters
`+1` then `+2` commit `3`. -/
theorem setSignal_coalesces_updater_writes {S : Type} (v : S) (f g : S → S) :
    (setSignal (setSignal (SignalCell.init v) (.updater f)) (.updater g)).scheduled = 1 ∧
    (setSignal (setSignal (SignalCell.init v) (.updater f)) (.updater g)).writes = 0 ∧
    (setSignal (setSignal (SignalCell.init v) (.updater f)) (.updater g)).committed = v ∧
    (flushMicrotask (setSignal (setSignal (SignalCell.init v) (.updater f)) (.updater g))).committed = g (f v) ∧
    (flushMicrotask (setSignal (setSignal (SignalCell.init v) (.updater f)) (.updater g))).writes = 1 ∧
    (flushMicrotask (setSignal (setSignal (SignalCell.init v) (.updater f)) (.updater g))).scheduled = 0 ∧
    (flushMicrotask (setSignal (setSignal (SignalCell.init v) (.updater f)) (.updater g))).dirty = false ∧
    (flushMicrotask (setSignal (setSignal (SignalCell.init (0 : Nat)) (.updater (· + 1))) (.updater (· + 2)))).committed = 3 :=
  ⟨rfl, rfl, rfl, rfl, rfl, rfl, rfl, rfl⟩

/-- C4: one insertion-effect, one layout-effect and one passive-effect
scheduled from the same reactive pass execute their bodies in the order
insertion, layout, passive, whatever the declaration (enqueue) order —
all six permutations, including the order passive, insertion, layout of
the spec example. -/
theorem effect_flavors_fire_insertion_layout_passive :
    effectOrder [.passive, .insertion, .layout] = [.insertion, .layout, .passive] ∧
    effectOrder [.passive, .layout, .insertion] = [.insertion, .layout, .passive] ∧
    effectOrder [.insertion, .layout, .passive] = [.insertion, .layout, .passive] ∧
    effectOrder [.insertion, .passive, .layout] = [.insertion, .layout, .passive] ∧
    effectOrder [.layout, .insertion, .passive] = [.insertion, .layout, .passive] ∧
    effectOrder [.layout, .passive, .insertion] = [.insertion, .layout, .passive] := by
  decide

/-- C9 counterexample: `Children.only` also throws on an array holding
exactly one element, an input that does not contain more than one
element, so it does not fail only on more-than-one-element inputs. -/
theorem childrenOnly_throws_on_singleton_array :
    childrenOnly (ReactChildren.array [(0 : Nat)])
      = Except.error "Children must be a single element"
    ∧ [(0 : Nat)].length = 1 :=
  ⟨rfl, rfl⟩

/-- C9 amended: `Children.only` throws exactly on array inputs — any
array, including those with zero or one element — and returns every
non-array input unchanged; in particular it does throw on every array
of more than one element. -/
theorem childrenOnly_throws_iff_array {A : Type} :
    (∀ l : List A, childrenOnly (ReactChildren.array l)
        = Except.error "Children must be a single element")
    ∧ (∀ a : A, childrenOnly (ReactChildren.single a) = Except.ok a) :=
  ⟨fun _ => rfl, fun _ => rfl⟩

/-- C10: reading a non-meta key on the useState getter forwards to the
property of the current value when that value is an object, the read
throws whenever the current value is undefined or null, and the three
meta-keys return the raw signal or the recorded dependency metadata. -/
theorem stateGetter_forwards_and_throws_on_nullish :
    (∀ (props : List (String × JSVal)) (deps : List Dep) (k : String),
      stateGetterGet (.obj props) deps (.strKey k)
        = .ok (.value ((props.lookup k).getD .undef)))
    ∧ (∀ (v : JSVal) (deps : List Dep) (k : String), v = JSVal.undef ∨ v = JSVal.jsNull →
        stateGetterGet v deps (.strKey k) = .error ())
    ∧ (∀ (v : JSVal) (deps : List Dep),
        stateGetterGet v deps .toPrimitive = .ok .signalFn ∧
        stateGetterGet v deps .toJSON = .ok .signalFn ∧
        stateGetterGet v deps .patchDeps = .ok (.depsList deps)) := by
  refine ⟨fun props deps k => rfl, fun v deps k h => ?_, fun v deps => ⟨rfl, rfl, rfl⟩⟩
  rcases h with h | h <;> subst h <;> rfl

/-- C10 witness: a property read on a getter whose current value is
undefined throws. -/
theorem stateGetter_forwards_and_throws_on_nullish_witness :
    stateGetterGet JSVal.undef [] (.strKey "count") = .error () :=
  stateGetter_forwards_and_throws_on_nullish.2.1 JSVal.undef [] "count" (Or.inl rfl)

/-- C7 counterexample: invoking a useMemo wrapper with the validate
sentinel still runs `trackDeps` on its declared list — here one
subscription is established — so the sentinel invocation does not avoid
re-subscribing; the patched state getter likewise reads the underlying
signal on a sentinel invocation. -/
theorem memo_validate_invocation_still_tracks :
    (memoInvoke flatDeps 5 [Dep.wrapper 0] (42 : Nat) [CallArg.validate]).2 = some [0]
    ∧ some [0] ≠ some ([] : List Nat)
    ∧ (wrappedSignalInvoke 7 (SignalCell.init (0 : Nat)) [CallArg.validate]).2 = [7] := by
  decide

/-- C7 amended: the validate-sentinel contract holds for useCallback
wrappers — a single-sentinel invocation returns the cached function
itself, runs no underlying callback and establishes no subscription —
while the useMemo wrapper and the patched state getter ignore their
argument entirely: a sentinel invocation behaves exactly like a no-arg
invocation, the memo running `trackDeps` on its declared list and
returning its cache, the getter reading the underlying signal and
returning its pending cache while dirty and the committed value
otherwise. -/
theorem wrapper_validate_sentinel_behaviour {A B : Type} :
    (∀ cache : List CallArg → B,
      callbackApply cache [CallArg.validate] = (Sum.inl cache, false, []))
    ∧ (∀ (g : Nat → List Dep) (fuel : Nat) (deps : List Dep) (cache : A)
         (args args' : List CallArg),
        memoInvoke g fuel deps cache args = memoInvoke g fuel deps cache args'
        ∧ (memoInvoke g fuel deps cache args).1 = cache
        ∧ (memoInvoke g fuel deps cache args).2 = trackDeps g fuel deps)
    ∧ (∀ (sid : Nat) (c : SignalCell A) (args args' : List CallArg),
        wrappedSignalInvoke sid c args = wrappedSignalInvoke sid c args'
        ∧ (wrappedSignalInvoke sid c args).2 = [sid]
        ∧ (wrappedSignalInvoke sid c args).1 = wrappedSignalRead c) := by
  refine ⟨fun cache => rfl, fun g fuel deps cache args args' => ⟨rfl, rfl, rfl⟩,
    fun sid c args args' => ⟨rfl, rfl, rfl⟩⟩


/-- Over metadata with no recorded dependencies anywhere, one
`trackDeps` call produces exactly the order-preserving deduplication of
the wrapper ids of its argument list. -/
theorem trackDepsGo_flat (g : Nat → List Dep) (hg : ∀ i, g i = []) :
    ∀ (deps : List Dep) (seen : List Nat) (fuel : Nat), deps.length < fuel →
      trackDepsGo g fuel deps seen = some (dedupAcc deps seen) := by
  intro deps
  induction deps with
  | nil =>
    intro seen fuel hf
    obtain ⟨f, rfl⟩ : ∃ f, fuel = f + 1 := ⟨fuel - 1, by omega⟩
    rfl
  | cons d rest ih =>
    intro seen fuel hf
    obtain ⟨f, rfl⟩ : ∃ f, fuel = f + 1 := ⟨fuel - 1, by omega⟩
    have hrest : rest.length < f := by simpa using Nat.lt_of_succ_lt_succ hf
    cases d with
    | plain v =>
      simpa [trackDepsGo, dedupAcc] using ih seen f hrest
    | wrapper i =>
      by_cases hmem : i ∈ seen
      · simpa [trackDepsGo, dedupAcc, hmem] using ih seen f hrest
      · have hf1 : 0 < f := Nat.lt_of_le_of_lt (Nat.zero_le _) hrest
        obtain ⟨f', rfl⟩ : ∃ f', f = f' + 1 := ⟨f - 1, by omega⟩
        simp only [trackDepsGo, dedupAcc, hmem, if_neg, ite_false, hg i]
        rw [ih (i :: seen) (f' + 1) hrest]
        simp

/-- The per-list deduplication produces no duplicates and never
produces an id from the already-seen set. -/
theorem dedupAcc_nodup :
    ∀ (deps : List Dep) (seen : List Nat),
      (dedupAcc deps seen).Nodup ∧ ∀ i ∈ dedupAcc deps seen, i ∉ seen := by
  intro deps
  induction deps with
  | nil => intro seen; exact ⟨List.nodup_nil, by simp [dedupAcc]⟩
  | cons d rest ih =>
    intro seen
    cases d with
    | plain v => simpa [dedupAcc] using ih seen
    | wrapper i =>
      by_cases hmem : i ∈ seen
      · simpa [dedupAcc, hmem] using ih seen
      · obtain ⟨hnd, hout⟩ := ih (i :: seen)
        refine ⟨?_, ?_⟩
        · simp only [dedupAcc, hmem, ite_false, if_neg]
          refine List.nodup_cons.mpr ⟨fun hmem2 => ?_, hnd⟩
          exact hout i hmem2 (List.mem_cons_self i seen)
        · intro j hj
          simp only [dedupAcc, hmem, ite_false, if_neg, List.mem_cons] at hj
          rcases hj with rfl | hj
          · exact hmem
          · intro hjs
            exact hout j hj (List.mem_cons_of_mem i hjs)

/-- Larger fuel cannot change a completed `trackDeps` run. -/
theorem trackDepsGo_mono (g : Nat → List Dep) :
    ∀ (fuel fuel' : Nat) (deps : List Dep) (seen : List Nat) (l : List Nat),
      fuel ≤ fuel' → trackDepsGo g fuel deps seen = some l →
      trackDepsGo g fuel' deps seen = some l := by
  intro fuel
  induction fuel with
  | zero => intro fuel' deps seen l _ h; exact absurd h (by simp [trackDepsGo])
  | succ f ih =>
    intro fuel' deps seen l hle h
    obtain ⟨f', rfl⟩ : ∃ f', fuel' = f' + 1 := ⟨fuel' - 1, by omega⟩
    have hle' : f ≤ f' := Nat.le_of_succ_le_succ hle
    cases deps with
    | nil => simpa [trackDepsGo] using h
    | cons d rest =>
      cases d with
      | plain v =>
        simp only [trackDepsGo] at h ⊢
        exact ih f' rest seen l hle' h
      | wrapper i =>
        by_cases hmem : i ∈ seen
        · simp only [trackDepsGo, hmem, ite_true, if_pos] at h ⊢
          exact ih f' rest seen l hle' h
        · simp only [trackDepsGo, hmem, ite_false, if_neg] at h ⊢
          cases hsub : trackDepsGo g f (g i) [] with
          | none => rw [hsub] at h; exact absurd h (by simp)
          | some sub =>
            rw [hsub] at h
            cases htail : trackDepsGo g f rest (i :: seen) with
            | none => rw [htail] at h; exact absurd h (by simp)
            | some tail =>
              rw [htail] at h
              rw [ih f' (g i) [] sub hle' hsub, ih f' rest (i :: seen) tail hle' htail]
              exact h

/-- Membership in the wrapper-id projection of a dependency list. -/
theorem mem_wrapperIds :
    ∀ (l : List Dep) (j : Nat), j ∈ wrapperIds l ↔ Dep.wrapper j ∈ l := by
  intro l
  induction l with
  | nil => intro j; simp [wrapperIds]
  | cons d rest ih =>
    intro j
    cases d with
    | plain v => simp [wrapperIds, ih]
    | wrapper i => simp [wrapperIds, ih]

/-- On the two-cycle metadata, every fuel is exhausted: the dedup map
is fresh in each recursive call, so the mutual recursion between
wrappers 0 and 1 never stops. -/
theorem trackDepsGo_cycle_none :
    ∀ fuel : Nat,
      trackDepsGo cycleDeps fuel [.wrapper 0] [] = none ∧
      trackDepsGo cycleDeps fuel [.wrapper 1] [] = none := by
  intro fuel
  induction fuel with
  | zero => exact ⟨rfl, rfl⟩
  | succ f ih =>
    constructor
    · simp only [trackDepsGo, List.not_mem_nil, ite_false, if_neg]
      simp [cycleDeps, ih.2]
    · simp only [trackDepsGo, List.not_mem_nil, ite_false, if_neg]
      simp [cycleDeps, ih.1]

/-- When a rank function decreases along every recorded dependency
edge, `trackDeps` completes with enough fuel: the recursive call on the
recorded list of a wrapper uses the strictly smaller rank of that
wrapper as its bound. -/
theorem trackDepsGo_ranked_total (g : Nat → List Dep) (r : Nat → Nat)
    (hg : ∀ i j, Dep.wrapper j ∈ g i → r j < r i) :
    ∀ (B : Nat) (deps : List Dep) (seen : List Nat),
      (∀ j ∈ wrapperIds deps, r j < B) →
      ∃ fuel l, trackDepsGo g fuel deps seen = some l := by
  intro B
  induction B using Nat.strong_induction_on with
  | _ B sih =>
    intro deps
    induction deps with
    | nil => intro seen _; exact ⟨1, [], rfl⟩
    | cons d rest ih =>
      intro seen hb
      cases d with
      | plain v =>
        obtain ⟨fuel, l, h⟩ := ih seen (fun j hj => hb j (by simpa [wrapperIds] using hj))
        exact ⟨fuel + 1, l, by simpa [trackDepsGo] using h⟩
      | wrapper i =>
        have hrest : ∀ j ∈ wrapperIds rest, r j < B := by
          intro j hj; exact hb j (by simp [wrapperIds, hj])
        by_cases hmem : i ∈ seen
        · obtain ⟨fuel, l, h⟩ := ih seen hrest
          exact ⟨fuel + 1, l, by simpa [trackDepsGo, hmem] using h⟩
        · have hiB : r i < B := hb i (by simp [wrapperIds])
          have hgi : ∀ j ∈ wrapperIds (g i), r j < r i := by
            intro j hj
            exact hg i j ((mem_wrapperIds (g i) j).mp hj)
          obtain ⟨fuel1, l1, h1⟩ := sih (r i) hiB (g i) [] hgi
          obtain ⟨fuel2, l2, h2⟩ := ih (i :: seen) hrest
          refine ⟨max fuel1 fuel2 + 1, i :: (l1 ++ l2), ?_⟩
          have h1' := trackDepsGo_mono g fuel1 (max fuel1 fuel2) (g i) [] l1
            (Nat.le_max_left _ _) h1
          have h2' := trackDepsGo_mono g fuel2 (max fuel1 fuel2) rest (i :: seen) l2
            (Nat.le_max_right _ _) h2
          simp [trackDepsGo, hmem, h1', h2']

/-- C2 corrected: deduplication by identity applies only among the
entries of the list passed to one call — a wrapper listed twice is
invoked once, and over flat metadata the invocation sequence is exactly
the deduplication of the list, with no id invoked twice — but each
recursive tracking call starts a fresh dedup map, so in the diamond
(wrappers 0 and 1 both recording wrapper 2) the shared deeper wrapper
is invoked once per path: the run is `[0, 2, 1, 2]` and wrapper 2 is
invoked twice, not once. -/
theorem trackDeps_dedup_per_list_only (g : Nat → List Dep) (deps : List Dep) (fuel : Nat)
    (hg : ∀ i, g i = []) (hf : deps.length < fuel) :
    (trackDeps g fuel deps = some (dedupAcc deps []) ∧ (dedupAcc deps []).Nodup)
    ∧ (trackDeps diamondDeps 10 [.wrapper 0, .wrapper 1] = some [0, 2, 1, 2]
       ∧ List.count 2 [0, 2, 1, 2] = 2) :=
  ⟨⟨trackDepsGo_flat g hg deps [] fuel hf, (dedupAcc_nodup deps []).1⟩, by decide⟩

/-- C2 witness: over flat metadata, a list holding the same wrapper
twice leads to a single invocation of that wrapper. -/
theorem trackDeps_dedup_per_list_only_witness :
    (trackDeps flatDeps 5 [.wrapper 3, .wrapper 3]
        = some (dedupAcc [.wrapper 3, .wrapper 3] [])
      ∧ (dedupAcc [.wrapper 3, .wrapper 3] []).Nodup)
    ∧ (trackDeps diamondDeps 10 [.wrapper 0, .wrapper 1] = some [0, 2, 1, 2]
       ∧ List.count 2 [0, 2, 1, 2] = 2) :=
  trackDeps_dedup_per_list_only flatDeps [.wrapper 3, .wrapper 3] 5
    (fun _ => rfl) (by decide)

/-- C2 counterexample: in the diamond, the deeper wrapper 2 reachable
through the recorded lists of both listed wrappers is invoked twice
during the single call, not exactly once. -/
theorem trackDeps_diamond_double_invocation :
    trackDeps diamondDeps 10 [.wrapper 0, .wrapper 1] = some [0, 2, 1, 2]
    ∧ List.count 2 [0, 2, 1, 2] ≠ 1 := by
  decide

/-- C3 counterexample: on the cyclic recorded-dependency graph where
wrapper 0 records wrapper 1 and wrapper 1 records wrapper 0, no fuel
completes the run of `trackDeps [wrapper 0]` — the recursion never
terminates, because each recursive call starts a fresh dedup map. -/
theorem trackDeps_cycle_diverges :
    ¬ ∃ (fuel : Nat) (l : List Nat), trackDeps cycleDeps fuel [.wrapper 0] = some l := by
  rintro ⟨fuel, l, h⟩
  rw [trackDeps, (trackDepsGo_cycle_none fuel).1] at h
  exact Option.noConfusion h

/-- C3 amended: `trackDeps` terminates whenever the recorded-dependency
graph admits a rank function that decreases along every recorded edge
(in particular on every acyclic reachable graph); on cyclic graphs
such as the two-cycle it runs forever. -/
theorem trackDeps_terminates_on_ranked_graphs (g : Nat → List Dep) (r : Nat → Nat)
    (deps : List Dep) (B : Nat)
    (hg : ∀ i j, Dep.wrapper j ∈ g i → r j < r i)
    (hd : ∀ j ∈ wrapperIds deps, r j < B) :
    ∃ fuel l, trackDeps g fuel deps = some l :=
  trackDepsGo_ranked_total g r hg B deps [] hd

/-- C3 witness: the diamond graph is acyclic (ranked by distance to the
sink wrapper 2), so tracking its top list terminates. -/
theorem trackDeps_terminates_on_ranked_graphs_witness :
    ∃ fuel l, trackDeps diamondDeps fuel [.wrapper 0, .wrapper 1] = some l :=
  trackDeps_terminates_on_ranked_graphs diamondDeps
    (fun i => if i = 2 then 0 else 1) [.wrapper 0, .wrapper 1] 2
    (by
      intro i j h
      match i with
      | 0 =>
        simp only [diamondDeps, List.mem_singleton, Dep.wrapper.injEq] at h
        subst h; decide
      | 1 =>
        simp only [diamondDeps, List.mem_singleton, Dep.wrapper.injEq] at h
        subst h; decide
      | n + 2 => simp [diamondDeps] at h)
    (by decide)

/-- A benign node leaves the traversal state of a fresh top-level
invocation untouched. -/
theorem processNode_benign (src : String) (n : PNode) (fuel : Nat) (st : TravState)
    (h1 : st.drn = "React") (h2 : st.ceNames = []) (h3 : st.ueNames = [])
    (hb : benignNode n = true) :
    processNode fuel ([], []) src n st = st := by
  cases fuel with
  | zero => rfl
  | succ f =>
    cases n with
    | importN s e fromReact specs =>
      simp only [benignNode, Bool.not_eq_true'] at hb
      simp [processNode, hb]
    | callN s e callee argId argProps argChildren effBS effBE effOccs =>
      simp only [benignNode, Bool.and_eq_true, Bool.not_eq_true'] at hb
      simp [processNode, h1, h2, h3, hb.1, hb.2]
    | containN s e ek =>
      cases ek with
      | identE => simp [processNode]
      | funcE => simp [processNode]
      | callE => simp [processNode]
      | objE props => simp [benignNode] at hb
      | otherE sub => simp [benignNode] at hb
    | jsxN s e tag os oe ch hc ij =>
      simp only [benignNode] at hb
      simp [processNode, hb]
    | otherN s e => simp [processNode]

/-- A list of benign nodes leaves a fresh traversal state untouched. -/
theorem runNodes_benign (src : String) :
    ∀ (nodes : List PNode) (fuel : Nat) (st : TravState),
      st.drn = "React" → st.ceNames = [] → st.ueNames = [] →
      (∀ n ∈ nodes, benignNode n = true) →
      nodes.length < fuel →
      runNodes fuel ([], []) src nodes st = st := by
  intro nodes
  induction nodes with
  | nil =>
    intro fuel st _ _ _ _ hf
    obtain ⟨f, rfl⟩ : ∃ f, fuel = f + 1 := ⟨fuel - 1, by omega⟩
    rfl
  | cons n rest ih =>
    intro fuel st h1 h2 h3 hb hf
    obtain ⟨f, rfl⟩ : ∃ f, fuel = f + 1 := ⟨fuel - 1, by omega⟩
    show runNodes f ([], []) src rest (processNode f ([], []) src n st) = st
    rw [processNode_benign src n f st h1 h2 h3 (hb n (List.mem_cons_self n rest))]
    exact ih f st h1 h2 h3 (fun m hm => hb m (List.mem_cons_of_mem n hm))
      (by simpa using Nat.lt_of_succ_lt_succ hf)

/-- The full slice of a string is the string. -/
theorem strSlice_full (s : String) : strSlice s 0 s.length = s := by
  cases s with
  | mk data =>
    simp [strSlice, String.toList, String.length, List.asString]

/-- C5 amended: the transform leaves a unit byte-identical exactly
when nothing fires: no anonymous function literal for the pre-pass, no
react import, no `React.createElement` or `React.useEffect` member
call (bare calls cannot match in a unit with no import since no alias
is ever recorded), no expression container needing a thunk and no
non-lowercase JSX tag.  The claimed condition — no recognized import
and no tracked alias — is not sufficient on its own. -/
theorem transformSource_passthrough (text : String) (nodes : List PNode) (fuel : Nat)
    (h1 : anonFnIndex text.toList = none)
    (h2 : ∀ n ∈ nodes, benignNode n = true)
    (h3 : nodes.length + 1 < fuel) :
    transformSource fuel ([], []) text nodes = text := by
  obtain ⟨f, rfl⟩ : ∃ f, fuel = f + 1 := ⟨fuel - 1, by omega⟩
  show (let src := handleBeforeAST text
        let st := runNodes f ([], []) src nodes ⟨"React", [], [], [], 0⟩
        String.join st.results ++
          (if st.lastIndex < src.length then strSlice src st.lastIndex src.length else "")) = text
  have hpre : handleBeforeAST text = text := by
    rw [handleBeforeAST, h1]
  simp only [hpre]
  rw [runNodes_benign text nodes f ⟨"React", [], [], [], 0⟩ rfl rfl rfl h2 (by omega)]
  simp only [String.join]
  by_cases hlen : 0 < text.length
  · simp [hlen, strSlice_full]
  · have : text.length = 0 := by omega
    have htext : text = "" := by
      cases text with
      | mk data =>
        simp [String.length] at this
        simp [this]
    simp [htext]

/-- C5 counterexample: a well-formed unit with no react import and no
tracked alias whose output differs from the input byte-for-byte — the
pre-pass names the anonymous function literal before parsing and the
insertion is never undone. -/
theorem transformSource_prepass_changes_text :
    transformSource 10 ([], []) "foo(function (){})" anonFnCexNodes
      = "foo(function  ___(){})"
    ∧ "foo(function  ___(){})" ≠ "foo(function (){})" := by
  constructor
  · rfl
  · decide

/-- C5 witness: a unit with none of the rewrite triggers passes
through unchanged. -/
theorem transformSource_passthrough_witness :
    transformSource 10 ([], []) "const a = 1;" [.otherN 0 12, .otherN 6 11] = "const a = 1;" :=
  transformSource_passthrough "const a = 1;" [.otherN 0 12, .otherN 6 11] 10
    (by decide) (by decide) (by decide)

/-- C8: a props property under the key `className` is emitted exactly
as the same property under the key `class`, whatever its value; and the
spec example — a default-imported alias `root` with
`root.createElement` building a div with `className: "a"` and text
child `"hi"` — transforms to a div element carrying `class="a"` and the
text child, with the surrounding text preserved. -/
theorem className_becomes_class :
    (∀ (fuel : Nat) (env : List String × List String) (src : String) (v : VNode)
       (b : Bool) (sub : List PNode) (ps : String),
      handleProps fuel env src (some (.propertyV (.identV "className") v b sub ps))
        = handleProps fuel env src (some (.propertyV (.identV "class") v b sub ps)))
    ∧ transformSource 50 ([], []) c8Text c8Nodes = c8Expected := by
  constructor
  · intro fuel env src v b sub ps
    cases fuel with
    | zero => rfl
    | succ f => simp [handleProps, handleValue]
  · rfl

mutual
/-- When every nested parse succeeds, one invocation leaves the alias
stacks exactly as it found them. -/
theorem runTransformStack_restores :
    ∀ (inp : AInput) (st : AliasStacks),
      allParses inp = true → runTransformStack inp st = (st, true)
  | .mk parses events, st, h => by
    simp only [allParses, Bool.and_eq_true] at h
    obtain ⟨hp, he⟩ := h
    subst hp
    obtain ⟨h1, h2, hrun⟩ :=
      runEventsStack_preserves_tails events [] st.ce [] st.ue he
    simp [runTransformStack, hrun]

/-- When every nested parse succeeds, the traversal events of one
invocation only change the head lists of the stacks. -/
theorem runEventsStack_preserves_tails :
    ∀ (evs : List AEvent) (g1 : List String) (gs1 : List (List String))
      (g2 : List String) (gs2 : List (List String)),
      allEventsParse evs = true →
      ∃ h1 h2, runEventsStack evs ⟨g1 :: gs1, g2 :: gs2⟩ = (⟨h1 :: gs1, h2 :: gs2⟩, true)
  | [], g1, gs1, g2, gs2, _ => ⟨g1, g2, rfl⟩
  | .importCreate nm :: rest, g1, gs1, g2, gs2, h => by
    obtain ⟨h1, h2, hrun⟩ :=
      runEventsStack_preserves_tails rest (g1 ++ [nm]) gs1 g2 gs2
        (by simpa [allEventsParse] using h)
    exact ⟨h1, h2, by simpa [runEventsStack, pushName] using hrun⟩
  | .importEffect nm :: rest, g1, gs1, g2, gs2, h => by
    obtain ⟨h1, h2, hrun⟩ :=
      runEventsStack_preserves_tails rest g1 gs1 (g2 ++ [nm]) gs2
        (by simpa [allEventsParse] using h)
    exact ⟨h1, h2, by simpa [runEventsStack, pushName] using hrun⟩
  | .recurse sub :: rest, g1, gs1, g2, gs2, h => by
    simp only [allEventsParse, Bool.and_eq_true] at h
    obtain ⟨hsub, hrest⟩ := h
    obtain ⟨h1, h2, hrun⟩ := runEventsStack_preserves_tails rest g1 gs1 g2 gs2 hrest
    refine ⟨h1, h2, ?_⟩
    have hres := runTransformStack_restores sub ⟨g1 :: gs1, g2 :: gs2⟩ hsub
    simp [runEventsStack, hres, hrun]
end

/-- C6 counterexample: on a malformed unit the parse error propagates
before the splice runs, so the invocation returns abnormally with its
freshly pushed (empty) alias lists still on the stacks — the stacks are
not restored to their pre-call state. -/
theorem transform_parse_error_leaks_alias_lists :
    runTransformStack (.mk false []) ⟨[], []⟩ = (⟨[[]], [[]]⟩, false)
    ∧ (⟨[[]], [[]]⟩ : AliasStacks) ≠ (⟨[], []⟩ : AliasStacks) := by
  exact ⟨rfl, by decide⟩

/-- C6 amended: the alias lists pushed on entry are removed before
returning on every normally completing path, including through nested
recursive invocations, so independent invocations never see each other
names; but on the fatal parse-error path the removal is skipped and the
pushed lists stay on the stacks. -/
theorem transform_restores_stacks_iff_parses (inp : AInput) (st : AliasStacks)
    (h : allParses inp = true) :
    runTransformStack inp st = (st, true)
    ∧ runTransformStack (.mk false []) st = (⟨[] :: st.ce, [] :: st.ue⟩, false) :=
  ⟨runTransformStack_restores inp st h, rfl⟩

/-- C6 witness: a nested invocation recording aliases at both levels
restores the surrounding stacks on success. -/
theorem transform_restores_stacks_iff_parses_witness :
    runTransformStack
        (.mk true [.importCreate "h", .recurse (.mk true [.importEffect "fx"])])
        ⟨[["x"]], [[]]⟩
      = (⟨[["x"]], [[]]⟩, true)
    ∧ runTransformStack (.mk false []) ⟨[["x"]], [[]]⟩
      = (⟨[[], ["x"]], [[], []]⟩, false) :=
  transform_restores_stacks_iff_parses
    (.mk true [.importCreate "h", .recurse (.mk true [.importEffect "fx"])])
    ⟨[["x"]], [[]]⟩ rfl
